import Mathlib

/-!
Verification of the quizzgame repository's session/scoring/storage core.

Shallow embedding of:
* `calculateScore` and `generateQuizCode` from `src/client/src/lib/utils/quiz.ts`,
* the `MemStorage` in-memory record store from `src/server/storage.ts`
  (quiz, participant and answer tables; the admin and question tables are
  not touched by any property proved here and are left out of the state).

JavaScript numbers are modelled as rationals (`ℚ`) where the source does
real arithmetic (`calculateScore`), and as integers where the schema in
`shared/schema.ts` declares `integer` columns.  `Map` objects are modelled
as association lists that preserve insertion order, since `Map.set` keeps
the original position of an existing key and `Array.from(map.values())`
iterates in insertion order.  `Date` values are modelled with an abstract
tick counter.  Randomness (`Math.random` / `crypto.randomInt`) is modelled
by an explicit stream of indices below the alphabet size, and the
collision-retry loop of `generateQuizCode` by explicit fuel.
-/

namespace QuizGame

/-- `calculateScore` from `src/client/src/lib/utils/quiz.ts`:
`if (!isCorrect) return 0; let score = 100;
if (t < 5000) score += 50; else if (t < 10000)
score += Math.floor(50 * (1 - (t - 5000) / 5000)); return score`. -/
def calculateScore (isCorrect : Bool) (responseTimeMs : ℚ) : ℤ :=
  if !isCorrect then 0
  else
    let score : ℤ := 100
    if responseTimeMs < 5000 then
      score + 50
    else if responseTimeMs < 10000 then
      score + ⌊(50 : ℚ) * (1 - (responseTimeMs - 5000) / 5000)⌋
    else
      score

example : calculateScore true 4999 = 150 := by decide
example : calculateScore true 5000 = 150 := by norm_num [calculateScore]
example : calculateScore true 7500 = 125 := by norm_num [calculateScore]
example : calculateScore true 10000 = 100 := by decide
example : calculateScore true 0 = 150 := by decide
example : calculateScore true 9999 = 100 := by norm_num [calculateScore]
example : calculateScore false 7500 = 0 := by decide

/-! ## Data model from `shared/schema.ts`

Record types mirror the drizzle tables; `Insert*` types mirror the zod
insert schemas, where a column with a database default becomes an optional
field.  `Partial<T>` update payloads become `*Patch` structures with every
field optional, and object spread `{ ...existing, ...patch }` becomes
`applyPatch`. -/

structure Quiz where
  id : ℕ
  adminId : ℕ
  title : String
  timePerQuestion : ℕ
  status : String
  code : String
  createdAt : ℕ
  deriving Repr, DecidableEq

structure InsertQuiz where
  adminId : ℕ
  title : String
  timePerQuestion : Option ℕ := none
  status : Option String := none
  code : String
  deriving Repr, DecidableEq

structure QuizPatch where
  id : Option ℕ := none
  adminId : Option ℕ := none
  title : Option String := none
  timePerQuestion : Option ℕ := none
  status : Option String := none
  code : Option String := none
  createdAt : Option ℕ := none
  deriving Repr, DecidableEq

def Quiz.applyPatch (q : Quiz) (u : QuizPatch) : Quiz :=
  { id := u.id.getD q.id, adminId := u.adminId.getD q.adminId,
    title := u.title.getD q.title,
    timePerQuestion := u.timePerQuestion.getD q.timePerQuestion,
    status := u.status.getD q.status, code := u.code.getD q.code,
    createdAt := u.createdAt.getD q.createdAt }

structure Participant where
  id : ℕ
  quizId : ℕ
  -- the source's `alias` column; `alias` is a reserved word in Lean
  aliasName : String
  score : ℤ
  joinedAt : ℕ
  deriving Repr, DecidableEq

structure InsertParticipant where
  quizId : ℕ
  aliasName : String
  score : Option ℤ := none
  deriving Repr, DecidableEq

structure ParticipantPatch where
  id : Option ℕ := none
  quizId : Option ℕ := none
  aliasName : Option String := none
  score : Option ℤ := none
  joinedAt : Option ℕ := none
  deriving Repr, DecidableEq

def Participant.applyPatch (p : Participant) (u : ParticipantPatch) : Participant :=
  { id := u.id.getD p.id, quizId := u.quizId.getD p.quizId,
    aliasName := u.aliasName.getD p.aliasName, score := u.score.getD p.score,
    joinedAt := u.joinedAt.getD p.joinedAt }

structure Answer where
  id : ℕ
  participantId : ℕ
  questionId : ℕ
  selectedOption : ℕ
  isCorrect : Bool
  responseTime : ℤ
  score : ℤ
  deriving Repr, DecidableEq

structure InsertAnswer where
  participantId : ℕ
  questionId : ℕ
  selectedOption : ℕ
  isCorrect : Bool
  responseTime : ℤ
  score : ℤ
  deriving Repr, DecidableEq

/-! ## JS `Map` objects

Modelled as insertion-ordered association lists: `Map.set` on an existing
key overwrites the value in place (the entry keeps its position), on a
fresh key it appends; `Array.from(map.values())` iterates in insertion
order. -/

def mapGet {α : Type} (m : List (ℕ × α)) (k : ℕ) : Option α :=
  (m.find? (fun e => e.1 == k)).map (fun e => e.2)

def mapSet {α : Type} (m : List (ℕ × α)) (k : ℕ) (v : α) : List (ℕ × α) :=
  if m.any (fun e => e.1 == k) then
    m.map (fun e => if e.1 == k then (k, v) else e)
  else
    m ++ [(k, v)]

def mapValues {α : Type} (m : List (ℕ × α)) : List α :=
  m.map (fun e => e.2)

/-! ## `MemStorage` from `src/server/storage.ts`

State and the operations the claims are about.  The admin and question
tables are never touched by those operations and are left out.  `Date`
values are modelled by the `clock` tick counter. -/

structure MemStorage where
  quizzes : List (ℕ × Quiz)
  participants : List (ℕ × Participant)
  answers : List (ℕ × Answer)
  quizId : ℕ
  participantId : ℕ
  answerId : ℕ
  clock : ℕ
  deriving Repr, DecidableEq

/-- The store before the constructor's demo seeding: empty tables, all id
counters at 1.  The constructor then synchronously seeds the sample quiz
GEO123 (see `seededStore` below); the participant and answer tables stay
empty either way. -/
def MemStorage.fresh : MemStorage :=
  { quizzes := [], participants := [], answers := [],
    quizId := 1, participantId := 1, answerId := 1, clock := 0 }

def MemStorage.getQuiz (st : MemStorage) (id : ℕ) : Option Quiz :=
  mapGet st.quizzes id

def MemStorage.getQuizByCode (st : MemStorage) (code : String) : Option Quiz :=
  (mapValues st.quizzes).find? (fun quiz => quiz.code == code)

def MemStorage.createQuiz (st : MemStorage) (quiz : InsertQuiz) : Quiz × MemStorage :=
  let id := st.quizId
  let newQuiz : Quiz :=
    { id, adminId := quiz.adminId, title := quiz.title,
      -- `quiz.timePerQuestion || 15` / `quiz.status || 'draft'`: JS `||`
      -- also replaces the falsy values `0` and `''`.
      timePerQuestion :=
        match quiz.timePerQuestion with
        | some n => if n = 0 then 15 else n
        | none => 15,
      status :=
        match quiz.status with
        | some s => if s = "" then "draft" else s
        | none => "draft",
      code := quiz.code, createdAt := st.clock }
  (newQuiz,
    { st with quizzes := mapSet st.quizzes id newQuiz,
              quizId := st.quizId + 1, clock := st.clock + 1 })

/-- The store as the constructor leaves it: the sample quiz GEO123 seeded
with quiz id 1 (so `quizId` is 2), and no participants or answers.  The
seeded sample questions live in the question table, which no operation
modelled here touches. -/
def seededStore : MemStorage :=
  (MemStorage.fresh.createQuiz
    { adminId := 1, title := "Geography Quiz", timePerQuestion := some 15,
      status := some "active", code := "GEO123" }).2

def MemStorage.updateQuiz (st : MemStorage) (id : ℕ) (quiz : QuizPatch) :
    Option Quiz × MemStorage :=
  match mapGet st.quizzes id with
  | none => (none, st)
  | some existingQuiz =>
      let updatedQuiz := existingQuiz.applyPatch quiz
      (some updatedQuiz, { st with quizzes := mapSet st.quizzes id updatedQuiz })

def MemStorage.getParticipant (st : MemStorage) (id : ℕ) : Option Participant :=
  mapGet st.participants id

def MemStorage.getParticipantsByQuiz (st : MemStorage) (quizId : ℕ) : List Participant :=
  (mapValues st.participants).filter (fun participant => participant.quizId == quizId)

def MemStorage.createParticipant (st : MemStorage) (participant : InsertParticipant) :
    Participant × MemStorage :=
  let id := st.participantId
  let newParticipant : Participant :=
    { id, quizId := participant.quizId, aliasName := participant.aliasName,
      -- `participant.score ?? 0`
      score := participant.score.getD 0, joinedAt := st.clock }
  (newParticipant,
    { st with participants := mapSet st.participants id newParticipant,
              participantId := st.participantId + 1, clock := st.clock + 1 })

def MemStorage.updateParticipant (st : MemStorage) (id : ℕ) (participant : ParticipantPatch) :
    Option Participant × MemStorage :=
  match mapGet st.participants id with
  | none => (none, st)
  | some existingParticipant =>
      let updatedParticipant := existingParticipant.applyPatch participant
      (some updatedParticipant,
        { st with participants := mapSet st.participants id updatedParticipant })

def MemStorage.getAnswersByParticipant (st : MemStorage) (participantId : ℕ) : List Answer :=
  (mapValues st.answers).filter (fun answer => answer.participantId == participantId)

def MemStorage.getAnswersByQuestion (st : MemStorage) (questionId : ℕ) : List Answer :=
  (mapValues st.answers).filter (fun answer => answer.questionId == questionId)

def MemStorage.createAnswer (st : MemStorage) (answer : InsertAnswer) : Answer × MemStorage :=
  let id := st.answerId
  let newAnswer : Answer :=
    { id, participantId := answer.participantId, questionId := answer.questionId,
      selectedOption := answer.selectedOption, isCorrect := answer.isCorrect,
      responseTime := answer.responseTime, score := answer.score }
  let st1 : MemStorage :=
    { st with answers := mapSet st.answers id newAnswer, answerId := st.answerId + 1 }
  match st1.getParticipant answer.participantId with
  | none => (newAnswer, st1)
  | some participant =>
      let updatedScore := participant.score + answer.score
      (newAnswer, (st1.updateParticipant participant.id { score := some updatedScore }).2)

/-- Stable insertion into a descending-by-score list: the element goes in
front of the first entry whose score is less than or equal to its own, so
everything placed before it has a strictly greater score. -/
def insertByScore (p : Participant) : List Participant → List Participant
  | [] => [p]
  | q :: rest => if q.score ≤ p.score then p :: q :: rest else q :: insertByScore p rest

/-- Stable descending sort by score.  `Array.prototype.sort` is stable
(ES2019), and stability plus the descending comparator
`(a, b) => b.score - a.score` determine the output uniquely, so any stable
descending sort is a faithful model. -/
def sortByScoreDesc : List Participant → List Participant
  | [] => []
  | p :: rest => insertByScore p (sortByScoreDesc rest)

def MemStorage.getLeaderboard (st : MemStorage) (quizId : ℕ) : List Participant :=
  sortByScoreDesc (st.getParticipantsByQuiz quizId)

/-- The unambiguous join-code alphabet (32 characters). -/
def codeCharacters : List Char := "ABCDEFGHJKLMNPQRSTUVWXYZ23456789".data

/-- One pass of code generation: six random draws from the alphabet,
`rand` standing for the `crypto.randomInt(0, characters.length)` stream
and `pos` for how many draws were consumed already. -/
def codeFromIndices (rand : ℕ → Fin 32) (pos : ℕ) : String :=
  String.mk ((List.range 6).map (fun i => codeCharacters.getD (rand (pos + i)).val 'A'))

/-- `MemStorage.generateQuizCode`: draw a 6-character code, retry while it
collides with an existing quiz code.  The unbounded recursion of the
source is modelled with explicit fuel; `none` means the fuel ran out. -/
def MemStorage.generateQuizCode (st : MemStorage) (rand : ℕ → Fin 32) :
    ℕ → ℕ → Option String
  | 0, _ => none
  | fuel + 1, pos =>
      let code := codeFromIndices rand pos
      match st.getQuizByCode code with
      | some _ => st.generateQuizCode rand fuel (pos + 6)
      | none => some code

/-- Folding a list of `createAnswer` calls over a store. -/
def runCreateAnswers (st : MemStorage) (l : List InsertAnswer) : MemStorage :=
  l.foldl (fun s a => (s.createAnswer a).2) st

/-- All stored answers for one `(participantId, questionId)` pair. -/
def answersForPair (st : MemStorage) (pid qid : ℕ) : List Answer :=
  (mapValues st.answers).filter (fun a => a.participantId == pid && a.questionId == qid)

/-- Every participant entry is keyed by its own `id` field.  This holds in
every state the storage itself produces (`createParticipant` keys the new
record by its id, and nothing the server calls patches the `id` column). -/
def participantsWF (st : MemStorage) : Prop :=
  ∀ e ∈ st.participants, e.2.id = e.1

/-- Every answer key is below the `answerId` counter, so the key chosen by
the next `createAnswer` is fresh.  This holds in every state the storage
itself produces. -/
def answersWF (st : MemStorage) : Prop :=
  ∀ e ∈ st.answers, e.1 < st.answerId

instance (st : MemStorage) : Decidable (participantsWF st) := by
  unfold participantsWF; infer_instance

instance (st : MemStorage) : Decidable (answersWF st) := by
  unfold answersWF; infer_instance

/-- Concrete test state: the fresh store after one participant joined. -/
def aliceStore : MemStorage :=
  (MemStorage.fresh.createParticipant
    { quizId := 1, aliasName := "Alice", score := none }).2

/-- Concrete correct answer worth 150 points, submitted by participant 1. -/
def aliceAnswer : InsertAnswer :=
  { participantId := 1, questionId := 1, selectedOption := 0,
    isCorrect := true, responseTime := 3000, score := 150 }

/-- The leaderboard order: strictly higher scores come first, and on equal
scores the earlier-joined participant comes first. -/
def LeaderboardLE (a b : Participant) : Prop :=
  b.score ≤ a.score ∧ (a.score = b.score → a.joinedAt ≤ b.joinedAt)

instance (a b : Participant) : Decidable (LeaderboardLE a b) := by
  unfold LeaderboardLE; infer_instance

/-- Concrete three-participant store: P2 leads with 150, P1 and P3 tie at
100 with P1 joined earlier. -/
def rosterStore : MemStorage :=
  (((MemStorage.fresh.createParticipant
        { quizId := 1, aliasName := "P1", score := some 100 }).2.createParticipant
      { quizId := 1, aliasName := "P2", score := some 150 }).2.createParticipant
    { quizId := 1, aliasName := "P3", score := some 100 }).2

/-! ## Association-list map lemmas -/

lemma find?_replace {α : Type} (k : ℕ) (v : α) :
    ∀ m : List (ℕ × α), m.any (fun e => e.1 == k) = true →
      (m.map (fun e => if e.1 == k then (k, v) else e)).find? (fun e => e.1 == k) =
        some (k, v) := by
  intro m
  induction m with
  | nil => intro h; simp at h
  | cons e m' ih =>
    intro h
    by_cases he : (e.1 == k) = true
    · simp only [List.map_cons, if_pos he]
      exact List.find?_cons_of_pos _ (by simp)
    · simp only [List.any_cons, he, Bool.false_or] at h
      simp only [List.map_cons, if_neg he]
      rw [@List.find?_cons_of_neg _ (fun x => x.1 == k) e _ he]
      exact ih h

lemma find?_replace_ne {α : Type} (k k' : ℕ) (v : α) (hne : k' ≠ k) :
    ∀ m : List (ℕ × α),
      (m.map (fun e => if e.1 == k then (k, v) else e)).find? (fun e => e.1 == k') =
        m.find? (fun e => e.1 == k') := by
  intro m
  induction m with
  | nil => rfl
  | cons e m' ih =>
    by_cases he : (e.1 == k) = true
    · have hek : e.1 = k := by simpa using he
      have h1 : ¬ (((k, v) : ℕ × α).1 == k') = true := by
        simp only [beq_iff_eq]
        exact fun hc => hne hc.symm
      have h2 : ¬ (e.1 == k') = true := by
        simp only [beq_iff_eq, hek]
        exact fun hc => hne hc.symm
      simp only [List.map_cons, if_pos he]
      rw [@List.find?_cons_of_neg _ (fun x => x.1 == k') (k, v) _ h1,
        @List.find?_cons_of_neg _ (fun x => x.1 == k') e _ h2]
      exact ih
    · simp only [List.map_cons, if_neg he]
      by_cases hk : (e.1 == k') = true
      · rw [@List.find?_cons_of_pos _ (fun x => x.1 == k') e _ hk,
          @List.find?_cons_of_pos _ (fun x => x.1 == k') e _ hk]
      · rw [@List.find?_cons_of_neg _ (fun x => x.1 == k') e _ hk,
          @List.find?_cons_of_neg _ (fun x => x.1 == k') e _ hk]
        exact ih

lemma mapGet_mapSet_self {α : Type} (m : List (ℕ × α)) (k : ℕ) (v : α) :
    mapGet (mapSet m k v) k = some v := by
  unfold mapGet mapSet
  split
  next h => rw [find?_replace k v m h]; rfl
  next h =>
    rw [List.find?_append]
    have h0 : m.find? (fun e => e.1 == k) = none :=
      List.find?_eq_none.mpr fun x hx hc => h (List.any_eq_true.mpr ⟨x, hx, hc⟩)
    rw [h0]
    simp [List.find?]

lemma mapGet_mapSet_ne {α : Type} (m : List (ℕ × α)) (k k' : ℕ) (v : α) (hne : k' ≠ k) :
    mapGet (mapSet m k v) k' = mapGet m k' := by
  unfold mapGet mapSet
  split
  next _ => rw [find?_replace_ne k k' v hne m]
  next _ =>
    rw [List.find?_append]
    have h2 : List.find? (fun e => e.1 == k') [(k, v)] = none := by
      have hckv : ¬ (((k, v) : ℕ × α).1 == k') = true := by
        simp only [beq_iff_eq]
        exact fun hc => hne hc.symm
      rw [@List.find?_cons_of_neg _ (fun x => x.1 == k') (k, v) _ hckv]
      rfl
    rw [h2]
    cases m.find? (fun e => e.1 == k') <;> rfl

lemma mapGet_eq_some_mem {α : Type} {m : List (ℕ × α)} {k : ℕ} {v : α}
    (h : mapGet m k = some v) : (k, v) ∈ m := by
  unfold mapGet at h
  cases hf : m.find? (fun e => e.1 == k) with
  | none => rw [hf] at h; cases h
  | some e =>
    rw [hf] at h
    have hm := List.mem_of_find?_eq_some hf
    have hp := List.find?_some hf
    obtain ⟨k', v'⟩ := e
    simp only [Option.map_some'] at h
    simp only [beq_iff_eq] at hp
    cases h
    cases hp
    exact hm

lemma mapSet_fresh {α : Type} (m : List (ℕ × α)) (k : ℕ) (v : α)
    (h : ∀ e ∈ m, e.1 ≠ k) : mapSet m k v = m ++ [(k, v)] := by
  have hany : m.any (fun e => e.1 == k) = false := by
    rw [List.any_eq_false]
    intro x hx
    simpa using h x hx
  simp [mapSet, hany]

lemma mapValues_append {α : Type} (m₁ m₂ : List (ℕ × α)) :
    mapValues (m₁ ++ m₂) = mapValues m₁ ++ mapValues m₂ :=
  List.map_append _ _ _

/-! ## `updateQuiz` / `updateParticipant` on a missing id (C10) -/

/-- C10: the two updates fail atomically and independently — for any id
with no stored quiz, `updateQuiz` returns `none` and the store itself
unchanged, and for any id with no stored participant, `updateParticipant`
does the same, regardless of what the other table holds at that id. -/
theorem update_missing_id (st : MemStorage) (id : ℕ) (qp : QuizPatch) (pp : ParticipantPatch) :
    (st.getQuiz id = none → st.updateQuiz id qp = (none, st)) ∧
    (st.getParticipant id = none → st.updateParticipant id pp = (none, st)) := by
  constructor
  · intro hq
    unfold MemStorage.updateQuiz
    rw [show mapGet st.quizzes id = none from hq]
  · intro hp
    unfold MemStorage.updateParticipant
    rw [show mapGet st.participants id = none from hp]

/-- C10 witness: in the constructor-seeded store, quiz 1 (GEO123) exists
while participant 1 does not, so `updateParticipant 1` fails with the
store unchanged even though quiz id 1 is taken; `updateQuiz 2` fails the
same way for the absent quiz id 2. -/
theorem update_missing_id_witness :
    (seededStore.getQuiz 1 ≠ none ∧ seededStore.getParticipant 1 = none ∧
      seededStore.updateParticipant 1 {} = (none, seededStore)) ∧
    (seededStore.getQuiz 2 = none ∧
      seededStore.updateQuiz 2 {} = (none, seededStore)) :=
  ⟨⟨by decide, by decide,
      (update_missing_id seededStore 1 {} {}).2 (by decide)⟩,
    ⟨by decide,
      (update_missing_id seededStore 2 {} {}).1 (by decide)⟩⟩

/-! ## `createAnswer` bookkeeping -/

lemma updateParticipant_keeps_answers (st : MemStorage) (id : ℕ) (p : ParticipantPatch) :
    ((st.updateParticipant id p).2).answers = st.answers ∧
      ((st.updateParticipant id p).2).answerId = st.answerId := by
  unfold MemStorage.updateParticipant
  cases mapGet st.participants id <;> exact ⟨rfl, rfl⟩

lemma createAnswer_fst (st : MemStorage) (a : InsertAnswer) :
    (st.createAnswer a).1 =
      { id := st.answerId, participantId := a.participantId, questionId := a.questionId,
        selectedOption := a.selectedOption, isCorrect := a.isCorrect,
        responseTime := a.responseTime, score := a.score } := by
  unfold MemStorage.createAnswer
  dsimp only
  split <;> rfl

lemma createAnswer_answers (st : MemStorage) (a : InsertAnswer) (h : answersWF st) :
    ((st.createAnswer a).2).answers = st.answers ++ [(st.answerId, (st.createAnswer a).1)] ∧
      ((st.createAnswer a).2).answerId = st.answerId + 1 := by
  rw [createAnswer_fst]
  have hfresh : mapSet st.answers st.answerId
      { id := st.answerId, participantId := a.participantId, questionId := a.questionId,
        selectedOption := a.selectedOption, isCorrect := a.isCorrect,
        responseTime := a.responseTime, score := a.score } =
      st.answers ++ [(st.answerId,
        { id := st.answerId, participantId := a.participantId, questionId := a.questionId,
          selectedOption := a.selectedOption, isCorrect := a.isCorrect,
          responseTime := a.responseTime, score := a.score })] :=
    mapSet_fresh _ _ _ fun e he => Nat.ne_of_lt (h e he)
  unfold MemStorage.createAnswer
  dsimp only
  split
  · exact ⟨hfresh, rfl⟩
  · rename_i participant _
    refine ⟨?_, ?_⟩
    · rw [(updateParticipant_keeps_answers _ participant.id _).1]
      exact hfresh
    · rw [(updateParticipant_keeps_answers _ participant.id _).2]

lemma createAnswer_answersWF (st : MemStorage) (a : InsertAnswer) (h : answersWF st) :
    answersWF ((st.createAnswer a).2) := by
  intro e he
  rw [(createAnswer_answers st a h).1] at he
  rw [(createAnswer_answers st a h).2]
  rcases List.mem_append.mp he with h3 | h3
  · exact Nat.lt_succ_of_lt (h e h3)
  · simp only [List.mem_singleton] at h3
    rw [h3]
    exact Nat.lt_succ_self _

lemma answersForPair_createAnswer (st : MemStorage) (a : InsertAnswer) (h : answersWF st)
    (pid qid : ℕ) :
    answersForPair ((st.createAnswer a).2) pid qid =
      answersForPair st pid qid ++
        (if a.participantId == pid && a.questionId == qid
          then [(st.createAnswer a).1] else []) := by
  unfold answersForPair
  rw [(createAnswer_answers st a h).1, mapValues_append, List.filter_append]
  congr 1
  rw [createAnswer_fst]
  simp only [mapValues, List.map_cons, List.map_nil]
  cases hc : (a.participantId == pid && a.questionId == qid) <;> simp [List.filter, hc]

lemma runCreateAnswers_count (l : List InsertAnswer) :
    ∀ st : MemStorage, answersWF st → ∀ pid qid : ℕ,
      (answersForPair (runCreateAnswers st l) pid qid).length =
        (answersForPair st pid qid).length +
          l.countP (fun a => a.participantId == pid && a.questionId == qid) := by
  induction l with
  | nil => intro st _ pid qid; simp [runCreateAnswers]
  | cons a l ih =>
    intro st h pid qid
    have hstep : runCreateAnswers st (a :: l) = runCreateAnswers ((st.createAnswer a).2) l := rfl
    rw [hstep, ih _ (createAnswer_answersWF st a h) pid qid,
      answersForPair_createAnswer st a h pid qid, List.length_append, List.countP_cons]
    by_cases hc : (a.participantId == pid && a.questionId == qid) = true
    · simp [hc]; omega
    · simp [hc]

/-- C2 counterexample: two `createAnswer` calls for the same
`(participantId, questionId)` pair both get stored — after the two calls
the pair `(1, 1)` has two Answer records, so the storage neither rejects
nor ignores a second submission. -/
theorem createAnswer_duplicate_stored :
    (answersForPair (runCreateAnswers MemStorage.fresh
        [{ participantId := 1, questionId := 1, selectedOption := 0,
           isCorrect := true, responseTime := 3000, score := 150 },
         { participantId := 1, questionId := 1, selectedOption := 1,
           isCorrect := false, responseTime := 4000, score := 0 }]) 1 1).length = 2 := by
  decide

/-- C2 amended: `createAnswer` performs no deduplication — starting from a
fresh store, after any sequence of `createAnswer` calls the number of
Answer records for a pair equals the number of calls submitting that pair.
Hence at most one Answer per pair holds exactly when no two calls in the
sequence share a pair; rejecting duplicates is left to the caller. -/
theorem createAnswer_pair_count (l : List InsertAnswer) (pid qid : ℕ) :
    (answersForPair (runCreateAnswers MemStorage.fresh l) pid qid).length =
      l.countP (fun a => a.participantId == pid && a.questionId == qid) := by
  have h := runCreateAnswers_count l MemStorage.fresh
    (fun e he => absurd he (by simp [MemStorage.fresh])) pid qid
  simpa [answersForPair, MemStorage.fresh, mapValues] using h

/-! ## `createAnswer` and participant scores (C5, C6) -/

lemma applyPatch_score_only (p : Participant) (s : ℤ) :
    p.applyPatch { score := some s } = { p with score := s } := rfl

lemma createAnswer_participants (st : MemStorage) (a : InsertAnswer)
    (hwf : participantsWF st) :
    ((st.createAnswer a).2).participants =
      match mapGet st.participants a.participantId with
      | none => st.participants
      | some p =>
          mapSet st.participants a.participantId { p with score := p.score + a.score } := by
  unfold MemStorage.createAnswer MemStorage.getParticipant MemStorage.updateParticipant
  dsimp only
  cases hm : mapGet st.participants a.participantId with
  | none => rfl
  | some p =>
    have hpid : p.id = a.participantId := hwf _ (mapGet_eq_some_mem hm)
    dsimp only
    rw [hpid, hm]
    simp [Participant.applyPatch, hpid]

lemma mapGet_append_last {α : Type} (m : List (ℕ × α)) (k : ℕ) (v : α)
    (h : ∀ e ∈ m, e.1 ≠ k) : mapGet (m ++ [(k, v)]) k = some v := by
  rw [show m ++ [(k, v)] = mapSet m k v from (mapSet_fresh m k v h).symm]
  exact mapGet_mapSet_self m k v

/-- C5: one `createAnswer` call both persists the Answer record and applies
the score increment to the participant the answer references: afterwards
the new answer is retrievable under the fresh id with the submitted fields,
the referenced participant's score is its old score plus the answer's
score, and every other participant is exactly as before. -/
theorem createAnswer_atomic (st : MemStorage) (a : InsertAnswer) (p : Participant)
    (hwf : participantsWF st) (hans : answersWF st)
    (hp : st.getParticipant a.participantId = some p) :
    mapGet ((st.createAnswer a).2).answers st.answerId = some (st.createAnswer a).1 ∧
    (st.createAnswer a).1.participantId = a.participantId ∧
    (st.createAnswer a).1.questionId = a.questionId ∧
    (st.createAnswer a).1.score = a.score ∧
    ((st.createAnswer a).2).getParticipant a.participantId =
      some { p with score := p.score + a.score } ∧
    (∀ k, k ≠ a.participantId →
      ((st.createAnswer a).2).getParticipant k = st.getParticipant k) := by
  have hparts := createAnswer_participants st a hwf
  rw [show mapGet st.participants a.participantId = some p from hp] at hparts
  refine ⟨?_, ?_, ?_, ?_, ?_, ?_⟩
  · rw [(createAnswer_answers st a hans).1]
    exact mapGet_append_last _ _ _ fun e he => Nat.ne_of_lt (hans e he)
  · rw [createAnswer_fst]
  · rw [createAnswer_fst]
  · rw [createAnswer_fst]
  · unfold MemStorage.getParticipant
    rw [hparts]
    exact mapGet_mapSet_self _ _ _
  · intro k hk
    unfold MemStorage.getParticipant
    rw [hparts]
    exact mapGet_mapSet_ne _ _ _ _ hk

/-- C5 witness: the atomicity theorem on a store holding the single
participant "Alice" with score 0, submitting a correct 150-point answer. -/
theorem createAnswer_atomic_witness :
    (participantsWF aliceStore ∧ answersWF aliceStore ∧
      aliceStore.getParticipant 1 =
        some { id := 1, quizId := 1, aliasName := "Alice", score := 0, joinedAt := 0 }) ∧
    (mapGet ((aliceStore.createAnswer aliceAnswer).2).answers aliceStore.answerId =
        some (aliceStore.createAnswer aliceAnswer).1 ∧
      (aliceStore.createAnswer aliceAnswer).1.participantId = aliceAnswer.participantId ∧
      (aliceStore.createAnswer aliceAnswer).1.questionId = aliceAnswer.questionId ∧
      (aliceStore.createAnswer aliceAnswer).1.score = aliceAnswer.score ∧
      ((aliceStore.createAnswer aliceAnswer).2).getParticipant aliceAnswer.participantId =
        some { id := 1, quizId := 1, aliasName := "Alice", score := 0 + 150, joinedAt := 0 } ∧
      (∀ k, k ≠ aliceAnswer.participantId →
        ((aliceStore.createAnswer aliceAnswer).2).getParticipant k =
          aliceStore.getParticipant k)) :=
  ⟨⟨by decide, by decide, by decide⟩,
    createAnswer_atomic aliceStore aliceAnswer
      { id := 1, quizId := 1, aliasName := "Alice", score := 0, joinedAt := 0 }
      (by decide) (by decide) (by decide)⟩

/-- C6 counterexample: `createParticipant` keeps a caller-supplied initial
score (`score ?? 0`), so a participant can be created with score 5 ≠ 0;
and `updateParticipant` applies an arbitrary score patch, dropping that
score from 5 to 2 — the score is neither 0 at creation nor non-decreasing
under every storage operation. -/
theorem participant_score_counterexample :
    ((MemStorage.fresh.createParticipant ⟨1, "A", some 5⟩).1).score = 5 ∧
    ((MemStorage.fresh.createParticipant ⟨1, "A", some 5⟩).2).getParticipant 1 =
      some { id := 1, quizId := 1, aliasName := "A", score := 5, joinedAt := 0 } ∧
    ((((MemStorage.fresh.createParticipant ⟨1, "A", some 5⟩).2).updateParticipant 1
        { score := some 2 }).2).getParticipant 1 =
      some { id := 1, quizId := 1, aliasName := "A", score := 2, joinedAt := 0 } := by
  decide

/-- C6 amended: a participant's score at creation is the supplied initial
score, defaulting to 0 when the insert carries none; `createAnswer` — the
path the Scoring Engine uses — only ever adds the answer's score, so for
non-negative answer scores no participant's score decreases; but
`updateParticipant` accepts an arbitrary score patch, so monotonicity
holds under `createAnswer`, not under every storage operation. -/
theorem participant_score_amended :
    (∀ (st : MemStorage) (p : InsertParticipant), p.score = none →
      ((st.createParticipant p).1).score = 0) ∧
    (∀ (st : MemStorage) (a : InsertAnswer), participantsWF st → 0 ≤ a.score →
      ∀ (k : ℕ) (p q : Participant), st.getParticipant k = some p →
        ((st.createAnswer a).2).getParticipant k = some q → p.score ≤ q.score) := by
  constructor
  · intro st p hs
    simp [MemStorage.createParticipant, hs]
  · intro st a hwf ha k p q hp hq
    have hparts := createAnswer_participants st a hwf
    unfold MemStorage.getParticipant at hp hq
    rw [hparts] at hq
    cases hm : mapGet st.participants a.participantId with
    | none =>
      rw [hm] at hq
      rw [hp] at hq
      cases hq
      exact le_refl _
    | some pp =>
      rw [hm] at hq
      by_cases hk : k = a.participantId
      · subst hk
        rw [hm] at hp
        cases hp
        rw [mapGet_mapSet_self] at hq
        cases hq
        simpa using ha
      · rw [mapGet_mapSet_ne _ _ _ _ hk] at hq
        rw [hp] at hq
        cases hq
        exact le_refl _

/-- C6 amended witness: creating "Alice" with no supplied score yields
score 0, and a 150-point `createAnswer` does not decrease that
participant's score. -/
theorem participant_score_amended_witness :
    (({ quizId := 1, aliasName := "Alice", score := none } : InsertParticipant).score = none ∧
      ((MemStorage.fresh.createParticipant
          { quizId := 1, aliasName := "Alice", score := none }).1).score = 0) ∧
    (participantsWF aliceStore ∧ (0 : ℤ) ≤ aliceAnswer.score ∧
      ∀ q : Participant,
        ((aliceStore.createAnswer aliceAnswer).2).getParticipant 1 = some q →
          ({ id := 1, quizId := 1, aliasName := "Alice", score := 0, joinedAt := 0 } :
              Participant).score ≤ q.score) :=
  ⟨⟨rfl, participant_score_amended.1 MemStorage.fresh
      { quizId := 1, aliasName := "Alice", score := none } rfl⟩,
    by decide, by decide,
    fun q hq => participant_score_amended.2 aliceStore aliceAnswer (by decide) (by decide) 1
      { id := 1, quizId := 1, aliasName := "Alice", score := 0, joinedAt := 0 } q
      (by decide) hq⟩

/-! ## Leaderboard (C3) -/

lemma insertByScore_perm (p : Participant) (l : List Participant) :
    (insertByScore p l).Perm (p :: l) := by
  induction l with
  | nil => exact List.Perm.refl _
  | cons q rest ih =>
    unfold insertByScore
    split
    · exact List.Perm.refl _
    · exact (List.Perm.cons q ih).trans (List.Perm.swap p q rest)

lemma sortByScoreDesc_perm (l : List Participant) : (sortByScoreDesc l).Perm l := by
  induction l with
  | nil => exact List.Perm.refl _
  | cons p rest ih =>
    exact (insertByScore_perm p (sortByScoreDesc rest)).trans (List.Perm.cons p ih)

lemma insertByScore_pairwise (p : Participant) (l : List Participant)
    (hl : l.Pairwise LeaderboardLE) (hp : ∀ q ∈ l, p.joinedAt ≤ q.joinedAt) :
    (insertByScore p l).Pairwise LeaderboardLE := by
  induction l with
  | nil => exact List.pairwise_singleton _ _
  | cons q rest ih =>
    obtain ⟨hq, hrest⟩ := List.pairwise_cons.mp hl
    unfold insertByScore
    split
    next hc =>
      refine List.pairwise_cons.mpr ⟨?_, hl⟩
      intro x hx
      rcases List.mem_cons.mp hx with rfl | hxr
      · exact ⟨hc, fun _ => hp x (List.mem_cons_self _ _)⟩
      · have hxq := hq x hxr
        refine ⟨hxq.1.trans hc, fun he => hp x (List.mem_cons_of_mem _ hxr)⟩
    next hc =>
      have hqp : p.score < q.score := lt_of_not_le hc
      refine List.pairwise_cons.mpr ⟨?_, ih hrest fun x hx => hp x (List.mem_cons_of_mem _ hx)⟩
      intro x hx
      have hx' := (insertByScore_perm p rest).mem_iff.mp hx
      rcases List.mem_cons.mp hx' with rfl | hxr
      · exact ⟨le_of_lt hqp, fun he => absurd he.symm (ne_of_lt hqp)⟩
      · exact hq x hxr

lemma sortByScoreDesc_pairwise (l : List Participant)
    (hj : l.Pairwise fun a b => a.joinedAt ≤ b.joinedAt) :
    (sortByScoreDesc l).Pairwise LeaderboardLE := by
  induction l with
  | nil => exact List.Pairwise.nil
  | cons p rest ih =>
    obtain ⟨hp, hrest⟩ := List.pairwise_cons.mp hj
    exact insertByScore_pairwise p _ (ih hrest)
      fun q hq => hp q ((sortByScoreDesc_perm rest).mem_iff.mp hq)

lemma insertByScore_filter (p : Participant) (s : ℤ) (l : List Participant) :
    (insertByScore p l).filter (fun q => q.score == s) =
      if (p.score == s) = true then p :: l.filter (fun q => q.score == s)
      else l.filter (fun q => q.score == s) := by
  induction l with
  | nil =>
    unfold insertByScore
    rw [List.filter_cons]
  | cons q rest ih =>
    unfold insertByScore
    split
    next hc => rw [List.filter_cons]
    next hc =>
      have hqp : p.score < q.score := lt_of_not_le hc
      rw [List.filter_cons, List.filter_cons, ih]
      by_cases hps : (p.score == s) = true
      · have hps' : p.score = s := by simpa using hps
        have hqs : (q.score == s) = false := by
          have hne : q.score ≠ s := fun he => ne_of_gt hqp (he.trans hps'.symm)
          simpa using hne
        simp [hps, hqs]
      · have hps'' : (p.score == s) = false := by simpa using hps
        simp [hps'']

lemma sortByScoreDesc_filter (l : List Participant) (s : ℤ) :
    (sortByScoreDesc l).filter (fun q => q.score == s) =
      l.filter (fun q => q.score == s) := by
  induction l with
  | nil => rfl
  | cons p rest ih =>
    unfold sortByScoreDesc
    rw [insertByScore_filter, List.filter_cons, ih]

/-- C3: the leaderboard is exactly the quiz's participants (a permutation
of the roster), in descending score order, and stably so: filtering any
score level gives the same sequence as filtering the roster, so two
participants with equal scores keep their roster (join) order — under the
roster invariant that participants appear in join order, equal-score
entries are ordered by `joinedAt`. -/
theorem getLeaderboard_spec (st : MemStorage) (quizId : ℕ)
    (hjoin : (st.getParticipantsByQuiz quizId).Pairwise fun a b => a.joinedAt ≤ b.joinedAt) :
    (st.getLeaderboard quizId).Perm (st.getParticipantsByQuiz quizId) ∧
    (st.getLeaderboard quizId).Pairwise LeaderboardLE ∧
    ∀ s : ℤ, (st.getLeaderboard quizId).filter (fun q => q.score == s) =
      (st.getParticipantsByQuiz quizId).filter (fun q => q.score == s) :=
  ⟨sortByScoreDesc_perm _, sortByScoreDesc_pairwise _ hjoin,
    fun s => sortByScoreDesc_filter _ s⟩

/-- C3 witness: the leaderboard theorem on the three-participant store
(P2 at 150, P1 and P3 tied at 100, P1 joined first). -/
theorem getLeaderboard_spec_witness :
    (rosterStore.getParticipantsByQuiz 1).Pairwise (fun a b => a.joinedAt ≤ b.joinedAt) ∧
    ((rosterStore.getLeaderboard 1).Perm (rosterStore.getParticipantsByQuiz 1) ∧
      (rosterStore.getLeaderboard 1).Pairwise LeaderboardLE ∧
      ∀ s : ℤ, (rosterStore.getLeaderboard 1).filter (fun q => q.score == s) =
        (rosterStore.getParticipantsByQuiz 1).filter (fun q => q.score == s)) :=
  ⟨by decide, getLeaderboard_spec rosterStore 1 (by decide)⟩

example :
    (rosterStore.getLeaderboard 1).map (fun p => p.aliasName) = ["P2", "P1", "P3"] := by
  decide

/-! ## Join-code generation (C7) -/

lemma codeFromIndices_length (rand : ℕ → Fin 32) (pos : ℕ) :
    (codeFromIndices rand pos).length = 6 := by
  simp [codeFromIndices, String.length]

lemma codeFromIndices_chars (rand : ℕ → Fin 32) (pos : ℕ) :
    ∀ c ∈ (codeFromIndices rand pos).data, c ∈ codeCharacters := by
  intro c hc
  simp only [codeFromIndices] at hc
  obtain ⟨i, _, rfl⟩ := List.mem_map.mp hc
  have hlt : (rand (pos + i)).val < codeCharacters.length := (rand (pos + i)).isLt
  rw [List.getD_eq_getElem _ _ hlt]
  exact List.getElem_mem hlt

/-- C7: whenever `generateQuizCode` returns a code, that code has exactly
6 characters, each drawn from the unambiguous 32-character alphabet, and
it differs from the code of every quiz already in the store (a colliding
draw is retried, never returned). -/
theorem generateQuizCode_spec (st : MemStorage) (rand : ℕ → Fin 32) :
    ∀ (fuel pos : ℕ) (code : String),
      st.generateQuizCode rand fuel pos = some code →
      code.length = 6 ∧ (∀ c ∈ code.data, c ∈ codeCharacters) ∧
        ∀ q ∈ mapValues st.quizzes, q.code ≠ code := by
  intro fuel
  induction fuel with
  | zero => intro pos code h; simp [MemStorage.generateQuizCode] at h
  | succ fuel ih =>
    intro pos code h
    unfold MemStorage.generateQuizCode at h
    dsimp only at h
    cases hg : st.getQuizByCode (codeFromIndices rand pos) with
    | some q => rw [hg] at h; exact ih _ _ h
    | none =>
      rw [hg] at h
      cases h
      refine ⟨codeFromIndices_length _ _, codeFromIndices_chars _ _, ?_⟩
      intro q hq hcontr
      unfold MemStorage.getQuizByCode at hg
      have hne := List.find?_eq_none.mp hg q hq
      simp [hcontr] at hne

/-- C7 witness: the code-generation theorem on the fresh store with the
all-zero randomness stream, which yields the code "AAAAAA". -/
theorem generateQuizCode_spec_witness :
    MemStorage.fresh.generateQuizCode (fun _ => (0 : Fin 32)) 1 0 = some "AAAAAA" ∧
    ("AAAAAA".length = 6 ∧ (∀ c ∈ "AAAAAA".data, c ∈ codeCharacters) ∧
      ∀ q ∈ mapValues MemStorage.fresh.quizzes, q.code ≠ "AAAAAA") :=
  ⟨by decide,
    generateQuizCode_spec MemStorage.fresh (fun _ => (0 : Fin 32)) 1 0 "AAAAAA" (by decide)⟩

/-! ## Scoring-engine properties -/

/-- On the middle branch (`5000 ≤ t < 10000`) the bonus expression
`50 * (1 - (t - 5000) / 5000)` simplifies to `(10000 - t) / 100`. -/
lemma calculateScore_mid (t : ℚ) (h1 : ¬ t < 5000) (h2 : t < 10000) :
    calculateScore true t = 100 + ⌊((10000 : ℚ) - t) / 100⌋ := by
  have he : (50 : ℚ) * (1 - (t - 5000) / 5000) = (10000 - t) / 100 := by ring
  simp only [calculateScore, Bool.not_true, Bool.false_eq_true, if_false, if_neg h1, if_pos h2, he]

lemma calculateScore_fast (t : ℚ) (h : t < 5000) : calculateScore true t = 150 := by
  simp only [calculateScore, Bool.not_true, Bool.false_eq_true, if_false, if_pos h]
  norm_num

lemma calculateScore_slow (t : ℚ) (h : ¬ t < 10000) : calculateScore true t = 100 := by
  have h1 : ¬ t < 5000 := fun hc => h (hc.trans (by norm_num))
  simp only [calculateScore, Bool.not_true, Bool.false_eq_true, if_false, if_neg h1, if_neg h]

lemma mid_floor_nonneg (t : ℚ) (h2 : t < 10000) : 0 ≤ ⌊((10000 : ℚ) - t) / 100⌋ :=
  Int.floor_nonneg.mpr (div_nonneg (by linarith) (by norm_num))

lemma mid_floor_le (t : ℚ) (h1 : 5000 ≤ t) : ⌊((10000 : ℚ) - t) / 100⌋ ≤ 50 := by
  have hle : ((10000 : ℚ) - t) / 100 ≤ 50 := by
    rw [div_le_iff₀ (by norm_num : (0 : ℚ) < 100)]
    linarith
  calc ⌊((10000 : ℚ) - t) / 100⌋ ≤ ⌊(50 : ℚ)⌋ := Int.floor_le_floor hle
    _ = 50 := by norm_num

/-- C9: `calculateScore` always lands in `[0, 150]`; a correct answer scores
at least 100; and for correct answers the score is non-increasing in the
(non-negative) response time. -/
theorem calculateScore_range_and_mono :
    (∀ (b : Bool) (t : ℚ), 0 ≤ calculateScore b t ∧ calculateScore b t ≤ 150) ∧
    (∀ t : ℚ, 100 ≤ calculateScore true t) ∧
    (∀ t1 t2 : ℚ, 0 ≤ t1 → t1 ≤ t2 → calculateScore true t2 ≤ calculateScore true t1) := by
  have hrange : ∀ t : ℚ, 100 ≤ calculateScore true t ∧ calculateScore true t ≤ 150 := by
    intro t
    by_cases h1 : t < 5000
    · rw [calculateScore_fast t h1]; exact ⟨by norm_num, le_refl _⟩
    · by_cases h2 : t < 10000
      · rw [calculateScore_mid t h1 h2]
        have := mid_floor_nonneg t h2
        have := mid_floor_le t (not_lt.mp h1)
        constructor <;> omega
      · rw [calculateScore_slow t h2]; exact ⟨le_refl _, by norm_num⟩
  refine ⟨?_, fun t => (hrange t).1, ?_⟩
  · intro b t
    cases b with
    | false => simp [calculateScore]
    | true => exact ⟨le_trans (by norm_num) (hrange t).1, (hrange t).2⟩
  · intro t1 t2 _ hle
    by_cases h1 : t1 < 5000
    · rw [calculateScore_fast t1 h1]; exact (hrange t2).2
    · have h1' : (5000 : ℚ) ≤ t1 := not_lt.mp h1
      by_cases h2 : t1 < 10000
      · by_cases h3 : t2 < 10000
        · have h4 : ¬ t2 < 5000 := not_lt.mpr (h1'.trans hle)
          rw [calculateScore_mid t1 h1 h2, calculateScore_mid t2 h4 h3]
          have hfl : ⌊((10000 : ℚ) - t2) / 100⌋ ≤ ⌊((10000 : ℚ) - t1) / 100⌋ :=
            Int.floor_le_floor (div_le_div_of_nonneg_right (by linarith) (by norm_num))
          omega
        · rw [calculateScore_slow t2 h3, calculateScore_mid t1 h1 h2]
          have := mid_floor_nonneg t1 h2
          omega
      · have h3 : ¬ t2 < 10000 := fun hc => h2 (lt_of_le_of_lt hle hc)
        rw [calculateScore_slow t1 h2, calculateScore_slow t2 h3]

/-- C9 witness: the range/monotonicity theorem applied at the concrete
pair of response times 5000 and 7500. -/
theorem calculateScore_range_and_mono_witness :
    (0 : ℚ) ≤ 5000 ∧ (5000 : ℚ) ≤ 7500 ∧
      calculateScore true 7500 ≤ calculateScore true 5000 :=
  ⟨by norm_num, by norm_num,
    calculateScore_range_and_mono.2.2 5000 7500 (by norm_num) (by norm_num)⟩

/-- C8: an incorrect answer always scores zero, whatever the response time. -/
theorem calculateScore_incorrect_zero (t : ℚ) : calculateScore false t = 0 := by
  simp [calculateScore]

/-- C4: a negative response time scores exactly as a zero response time
(both land in the fast branch and get the full 50-point bonus). -/
theorem calculateScore_neg_eq_zero_time (t : ℚ) (h : t < 0) :
    calculateScore true t = calculateScore true 0 := by
  rw [calculateScore_fast t (h.trans (by norm_num)), calculateScore_fast 0 (by norm_num)]

/-- C4 witness: the clamping theorem applied at response time `-1`. -/
theorem calculateScore_neg_eq_zero_time_witness :
    (-1 : ℚ) < 0 ∧ calculateScore true (-1) = calculateScore true 0 :=
  ⟨by norm_num, calculateScore_neg_eq_zero_time (-1) (by norm_num)⟩

/-- C1 counterexample: at exactly 5000 ms the code takes the linear-bonus
branch, which yields `floor(50 * (1 - 0)) = 50`, so the score is 150 —
not 100 as the spec's sample point claims. -/
theorem calculateScore_at_5000 :
    calculateScore true 5000 = 150 ∧ calculateScore true 5000 ≠ 100 := by
  constructor <;> norm_num [calculateScore]

/-- C1 amended: the sample points as the code computes them —
`score(true, 4999) = 150`, `score(true, 5000) = 150` (full bonus at the
boundary), `score(true, 7500) = 125`, `score(true, 10000) = 100`. -/
theorem calculateScore_samples :
    calculateScore true 4999 = 150 ∧ calculateScore true 5000 = 150 ∧
      calculateScore true 7500 = 125 ∧ calculateScore true 10000 = 100 := by
  refine ⟨by decide, ?_, ?_, by decide⟩ <;> norm_num [calculateScore]


end QuizGame
